import Mathlib

/-!
A shallow embedding of the `pyhiera` hierarchical configuration resolver
(`src/pyhiera/hiera.py`, `src/pyhiera/backends.py`, `src/pyhiera/errors.py`).

The embedding mirrors the Python source:
* `Value` is the universe of Python values the library manipulates
  (dicts with string keys, lists, sets, strings, ints, bools, `None`);
  Python dicts are insertion-ordered, so they are modelled as association
  lists with `alookup` / `aset` reproducing `d[k]` / `d[k] = v` semantics.
* `_key_data_get_merge` is `PyHieraBase._key_data_get_merge`, the deep merger.
* `fmtText`/`fmtField` model CPython `str.format(**facts)` for level templates
  with plain `\x7bname\x7d` placeholders (no attribute access, indexing,
  conversion, or format specs — the repository's templates use none of those);
  `expand_level` is `PyHieraBackendBase._expand_level`.
* `BackendsRegistry` is `PyHieraBackendsBase`; `key_data_get` /
  `key_data_get_merge` are the `PyHieraSync` resolver entry points.
  Registry mutators return the post-call state plus an optional raised
  exception, mirroring Python's mutate-then-maybe-raise control flow.
* A backend's `_key_data_get` (YAML file reading in the source) is an external
  collaborator per the spec and is modelled as an opaque-to-the-resolver
  function field `store` returning the matched data points in level order.
* A key's pydantic schema is likewise external: `PyKey.validate` maps raw data
  to the validated, normalized (`model_dump`-ed) value or a validation error.
-/

/-- Universe of Python values handled by pyhiera (dict keys restricted to
strings, as in the YAML-backed configuration data). -/
inductive Value where
  | vdict : List (String × Value) → Value
  | vlist : List Value → Value
  | vset : List Value → Value
  | vstr : String → Value
  | vint : Int → Value
  | vbool : Bool → Value
  | vnone : Value

mutual

/-- Structural equality on `Value` (Python `==` for this value universe). -/
def Value.beq : Value → Value → Bool
  | .vdict d₁, .vdict d₂ => Value.beqKVs d₁ d₂
  | .vlist l₁, .vlist l₂ => Value.beqList l₁ l₂
  | .vset s₁, .vset s₂ => Value.beqList s₁ s₂
  | .vstr a, .vstr b => a == b
  | .vint a, .vint b => a == b
  | .vbool a, .vbool b => a == b
  | .vnone, .vnone => true
  | _, _ => false

def Value.beqKVs : List (String × Value) → List (String × Value) → Bool
  | [], [] => true
  | (k₁, v₁) :: r₁, (k₂, v₂) :: r₂ => k₁ == k₂ && Value.beq v₁ v₂ && Value.beqKVs r₁ r₂
  | _, _ => false

def Value.beqList : List Value → List Value → Bool
  | [], [] => true
  | v₁ :: r₁, v₂ :: r₂ => Value.beq v₁ v₂ && Value.beqList r₁ r₂
  | _, _ => false

end

mutual

theorem Value.beq_sound : ∀ a b : Value, Value.beq a b = true → a = b
  | .vdict d₁, .vdict d₂, h => by
    simp only [Value.beq] at h; rw [Value.beqKVs_sound d₁ d₂ h]
  | .vlist l₁, .vlist l₂, h => by
    simp only [Value.beq] at h; rw [Value.beqList_sound l₁ l₂ h]
  | .vset s₁, .vset s₂, h => by
    simp only [Value.beq] at h; rw [Value.beqList_sound s₁ s₂ h]
  | .vstr a, .vstr b, h => by simp only [Value.beq, beq_iff_eq] at h; rw [h]
  | .vint a, .vint b, h => by simp only [Value.beq, beq_iff_eq] at h; rw [h]
  | .vbool a, .vbool b, h => by simp only [Value.beq, beq_iff_eq] at h; rw [h]
  | .vnone, .vnone, _ => rfl

theorem Value.beqKVs_sound : ∀ a b : List (String × Value), Value.beqKVs a b = true → a = b
  | [], [], _ => rfl
  | (k₁, v₁) :: r₁, (k₂, v₂) :: r₂, h => by
    simp only [Value.beqKVs, Bool.and_eq_true, beq_iff_eq] at h
    rw [h.1.1, Value.beq_sound v₁ v₂ h.1.2, Value.beqKVs_sound r₁ r₂ h.2]

theorem Value.beqList_sound : ∀ a b : List Value, Value.beqList a b = true → a = b
  | [], [], _ => rfl
  | v₁ :: r₁, v₂ :: r₂, h => by
    simp only [Value.beqList, Bool.and_eq_true] at h
    rw [Value.beq_sound v₁ v₂ h.1, Value.beqList_sound r₁ r₂ h.2]

end

mutual

theorem Value.beq_refl : ∀ a : Value, Value.beq a a = true
  | .vdict d => by simp only [Value.beq]; exact Value.beqKVs_refl d
  | .vlist l => by simp only [Value.beq]; exact Value.beqList_refl l
  | .vset s => by simp only [Value.beq]; exact Value.beqList_refl s
  | .vstr a => by simp [Value.beq]
  | .vint a => by simp [Value.beq]
  | .vbool a => by simp [Value.beq]
  | .vnone => rfl

theorem Value.beqKVs_refl : ∀ a : List (String × Value), Value.beqKVs a a = true
  | [] => rfl
  | (k, v) :: r => by
    simp [Value.beqKVs, Value.beq_refl v, Value.beqKVs_refl r]

theorem Value.beqList_refl : ∀ a : List Value, Value.beqList a a = true
  | [] => rfl
  | v :: r => by
    simp only [Value.beqList, Bool.and_eq_true]
    exact ⟨Value.beq_refl v, Value.beqList_refl r⟩

end

instance : DecidableEq Value := fun a b =>
  if h : Value.beq a b = true then isTrue (Value.beq_sound a b h)
  else isFalse (fun e => h (e ▸ Value.beq_refl a))

/-- Python `d[k]` lookup on an insertion-ordered dict. -/
def alookup (k : String) : List (String × α) → Option α
  | [] => none
  | (k', v) :: rest => if k' = k then some v else alookup k rest

/-- Python `d[k] = v`: replace in place if the key exists, else append. -/
def aset (k : String) (v : α) : List (String × α) → List (String × α)
  | [] => [(k, v)]
  | (k', v') :: rest => if k' = k then (k', v) :: rest else (k', v') :: aset k v rest

/-- `isinstance(v, dict)` -/
def Value.isDict : Value → Bool
  | .vdict _ => true
  | _ => false

/-- `isinstance(v, list)` -/
def Value.isList : Value → Bool
  | .vlist _ => true
  | _ => false

/-- `isinstance(v, set)` -/
def Value.isSet : Value → Bool
  | .vset _ => true
  | _ => false

/-- A value hitting the final `else` branch of the merger (scalar overwrite). -/
def Value.isScalar : Value → Bool
  | .vdict _ => false
  | .vlist _ => false
  | .vset _ => false
  | _ => true

/-- Python `s0.update(s1)` on sets: keep `s0`'s elements, add those of `s1`
not already present (sets are modelled extensionally as duplicate-free
lists; iteration order of Python sets is unspecified, so we fix the order
"old elements first"). -/
def setUpdate (s₀ s : List Value) : List Value :=
  s₀ ++ s.filter (fun x => !(s₀.contains x))

/--
`PyHieraBase._key_data_get_merge(update, result)` (hiera.py:530-561).
The first argument is the `update` dict's entry list, the second the
accumulator (`result`).  Python mutates `result` in place and returns it;
the model returns the new value, with `none` standing for the uncaught
`AttributeError`/`TypeError` Python raises when the per-type operations
(`setdefault`, `extend`, `update`, item assignment) hit a value of the
wrong type.  `result.setdefault(key, {})` is `(alookup k d).getD (.vdict [])`
followed by writing the merged value back at the same position (`aset`).
Set-into-dict updates are modelled as errors; Python's `dict.update` would
only accept sets whose every element is a key/value sequence, which never
arises for configuration data.
-/
def _key_data_get_merge : List (String × Value) → Value → Option Value
  | [], result => some result
  | (k, .vdict u) :: rest, .vdict d =>
    match _key_data_get_merge u ((alookup k d).getD (.vdict [])) with
    | some m => _key_data_get_merge rest (.vdict (aset k m d))
    | none => none
  | (k, .vlist l) :: rest, .vdict d =>
    match alookup k d with
    | some (.vlist l₀) => _key_data_get_merge rest (.vdict (aset k (.vlist (l₀ ++ l)) d))
    | some _ => none
    | none => _key_data_get_merge rest (.vdict (aset k (.vlist l) d))
  | (k, .vset s) :: rest, .vdict d =>
    match alookup k d with
    | some (.vset s₀) => _key_data_get_merge rest (.vdict (aset k (.vset (setUpdate s₀ s)) d))
    | some _ => none
    | none => _key_data_get_merge rest (.vdict (aset k (.vset s) d))
  | (k, v) :: rest, .vdict d => _key_data_get_merge rest (.vdict (aset k v d))
  | _ :: _, _ => none

/-- The exception taxonomy of `errors.py`, plus `pythonError` for builtin
Python exceptions the library does not catch (`ValueError`/`IndexError`
escaping `str.format`, `AttributeError`/`TypeError` escaping the merger). -/
inductive PyErr where
  | pyHieraError (msg : String)
  | pyHieraBackendError (msg : String)
  | pythonError (msg : String)
deriving DecidableEq

mutual

/-- Python `str()`/f-string rendering of a `Value` (repr semantics for
containers, as CPython does when interpolating them). -/
def pyStr : Value → String
  | .vdict d => "\x7b" ++ pyStrKVs d ++ "\x7d"
  | .vlist l => "[" ++ pyStrList l ++ "]"
  | .vset [] => "set()"
  | .vset s => "\x7b" ++ pyStrList s ++ "\x7d"
  | .vstr s => s
  | .vint n => toString n
  | .vbool b => if b then "True" else "False"
  | .vnone => "None"
termination_by v => (sizeOf v, 0)

def pyStrInner : Value → String
  | .vstr s => "'" ++ s ++ "'"
  | v => pyStr v
termination_by v => (sizeOf v, 1)

def pyStrKVs : List (String × Value) → String
  | [] => ""
  | [(k, v)] => "'" ++ k ++ "': " ++ pyStrInner v
  | (k, v) :: rest => "'" ++ k ++ "': " ++ pyStrInner v ++ ", " ++ pyStrKVs rest
termination_by l => (sizeOf l, 0)

def pyStrList : List Value → String
  | [] => ""
  | [v] => pyStrInner v
  | v :: rest => pyStrInner v ++ ", " ++ pyStrList rest
termination_by l => (sizeOf l, 0)

end

/-- Failure modes of CPython `str.format`: a placeholder name absent from the
keyword arguments (`KeyError name`), malformed braces (`ValueError`), or an
empty/numeric field name with no positional arguments (`IndexError`). -/
inductive FormatErr where
  | keyError (name : String)
  | valueError (msg : String)
  | indexError (msg : String)
deriving DecidableEq

instance {e a : Type} [DecidableEq e] [DecidableEq a] : DecidableEq (Except e a) := fun x y =>
  match x, y with
  | .ok u, .ok v => if h : u = v then isTrue (by rw [h]) else isFalse (by intro q; cases q; exact h rfl)
  | .error u, .error v => if h : u = v then isTrue (by rw [h]) else isFalse (by intro q; cases q; exact h rfl)
  | .ok _, .error _ => isFalse nofun
  | .error _, .ok _ => isFalse nofun

/-- The fact set supplied to a resolve call: a Python `dict[str, str]`. -/
abbrev Facts := List (String × String)

/--
`template.format(**facts)` on the character list of the template.  Models
plain `\x7bname\x7d` placeholders (the only form pyhiera's level templates
use): `\x7b\x7b`/`\x7d\x7d` are literal braces, a lone `\x7d` (or an
unterminated field) is a `ValueError`, and `\x7b` opens a field.  The second
argument is the parser mode: `none` is text mode; `some acc` is field mode
with the field name accumulated in reverse in `acc`.  On closing a field, an
empty or all-digit name is positional auto-numbering, which raises
`IndexError` when `format` is called with keyword arguments only; a name
missing from `facts` raises `KeyError name`.
-/
def fmtGo (facts : Facts) : List Char → Option (List Char) → Except FormatErr (List Char)
  | [], none => .ok []
  | [], some _ => .error (.valueError "Single brace encountered in format string")
  | c :: rest, some acc =>
    if c = '\x7d' then
      if acc.all Char.isDigit then .error (.indexError "Replacement index out of range")
      else
        match alookup (String.mk acc.reverse) facts with
        | some v => (fmtGo facts rest none).map (fun s => v.data ++ s)
        | none => .error (.keyError (String.mk acc.reverse))
    else if c = '\x7b' then .error (.valueError "unexpected brace in field name")
    else fmtGo facts rest (some (c :: acc))
  | [c], none =>
    if c = '\x7b' then fmtGo facts [] (some [])
    else if c = '\x7d' then .error (.valueError "Single brace encountered in format string")
    else (fmtGo facts [] none).map (fun s => [c] ++ s)
  | c :: c2 :: rest2, none =>
    if c = '\x7b' then
      if c2 = '\x7b' then (fmtGo facts rest2 none).map (fun s => '\x7b' :: s)
      else fmtGo facts (c2 :: rest2) (some [])
    else if c = '\x7d' then
      if c2 = '\x7d' then (fmtGo facts rest2 none).map (fun s => '\x7d' :: s)
      else .error (.valueError "Single brace encountered in format string")
    else (fmtGo facts (c2 :: rest2) none).map (fun s => c :: s)

/-- The placeholder names of a template, mirroring the parse structure of
`fmtGo` (same mode convention); `none` when the template is malformed
(stray braces, unterminated field). -/
def phGo : List Char → Option (List Char) → Option (List String)
  | [], none => some []
  | [], some _ => none
  | c :: rest, some acc =>
    if c = '\x7d' then (phGo rest none).map (fun ns => String.mk acc.reverse :: ns)
    else if c = '\x7b' then none
    else phGo rest (some (c :: acc))
  | [c], none =>
    if c = '\x7b' then phGo [] (some [])
    else if c = '\x7d' then none
    else phGo [] none
  | c :: c2 :: rest2, none =>
    if c = '\x7b' then
      if c2 = '\x7b' then phGo rest2 none else phGo (c2 :: rest2) (some [])
    else if c = '\x7d' then
      if c2 = '\x7d' then phGo rest2 none else none
    else phGo (c2 :: rest2) none

/-- `PyHieraBackendBase._expand_level` (backends.py:49-54): render the level
template with the facts; a `KeyError` (missing fact) is caught and re-raised
as `PyHieraBackendError` naming the level and the fact (Python's
`str(KeyError)` keeps the quotes); other `format` exceptions propagate. -/
def expand_level (level : String) (facts : Facts) : Except PyErr String :=
  match fmtGo facts level.data none with
  | .ok cs => .ok (String.mk cs)
  | .error (.keyError n) =>
    .error (.pyHieraBackendError ("missing facts to expand level " ++ level ++ ": '" ++ n ++ "'"))
  | .error (.valueError m) => .error (.pythonError m)
  | .error (.indexError m) => .error (.pythonError m)

/-- `PyHieraModelBackendData` (models.py): one concrete match produced by a
backend read. -/
structure BackendData where
  identifier : String
  priority : Int
  level : String
  key : String
  data : Value
deriving DecidableEq

/-- A registered key's bound schema (keys.py / pydantic): the external
validation contract.  `validate` maps raw data to the validated value in its
normalized plain form (what `validated.data` / `validated.data.model_dump()`
yields in the source), or to the underlying validation error message. -/
structure PyKey where
  validate : Value → Except String Value

/-- `PyHieraModelDataBase` (models.py): the resolved result — validated data
plus optional source provenance. -/
structure DataResult where
  sources : Option (List BackendData) := none
  data : Value
deriving DecidableEq

/-- `PyHieraBackendBase` (backends.py): identifier, priority, hierarchy of
level templates, and the external read contract `store` standing for
`_key_data_get` (the YAML-file scan, which returns the matches in hierarchy
level order and never raises). -/
structure Backend where
  identifier : String
  priority : Int
  hierarchy : List String
  store : String → List String → List BackendData

/-- The level-expansion loop of `PyHieraBackendSync.key_data_get`
(backends.py:97-105): expand every hierarchy level in order, raising on the
first failure. -/
def expand_levels : List String → Facts → Except PyErr (List String)
  | [], _ => .ok []
  | level :: rest, facts =>
    match expand_level level facts with
    | .error e => .error e
    | .ok s => (expand_levels rest facts).map (fun ls => s :: ls)

/-- `PyHieraBackendSync.key_data_get` (backends.py:97-105): expand all
hierarchy levels against the facts, then ask the store for the matches. -/
def Backend.key_data_get (b : Backend) (key : String) (facts : Facts) :
    Except PyErr (List BackendData) :=
  match expand_levels b.hierarchy facts with
  | .error e => .error e
  | .ok levels => .ok (b.store key levels)

/-- `PyHieraBackendsBase` (hiera.py:214-303): the backend registry.  `dict`
is the insertion-ordered `_backends_dict`, `list` the cached
priority-sorted `_backends_list`. -/
structure BackendsRegistry where
  dict : List (String × Backend)
  list : List Backend

/-- The priority order used by `_recreate_list`'s `sort`. -/
def prioLE (a b : Backend) : Prop := a.priority ≤ b.priority

instance : DecidableRel prioLE := fun a b => Int.decLe a.priority b.priority

instance : IsTotal Backend prioLE := ⟨fun a b => Int.le_total a.priority b.priority⟩

instance : IsTrans Backend prioLE := ⟨fun _ _ _ => Int.le_trans⟩

/-- `PyHieraBackendsBase._recreate_list` (hiera.py:297-303): rebuild the
cached view from the dict's values and sort it ascending by priority. -/
def recreate_list (dict : List (String × Backend)) : List Backend :=
  List.insertionSort prioLE (dict.map Prod.snd)

/-- A fresh `PyHieraBackendsBase()`. -/
def BackendsRegistry.empty : BackendsRegistry := ⟨[], []⟩

/-- `PyHieraBackendsBase.add` (hiera.py:239-262).  Returns the post-call
registry state and the raised exception, if any (Python raises before any
mutation, so on failure the state is returned untouched).  The priority scan
iterates `_backends_dict.values()` in insertion order; `find?` returns the
first conflicting backend, as the loop's `raise` does. -/
def BackendsRegistry.add (r : BackendsRegistry) (b : Backend) :
    BackendsRegistry × Option PyErr :=
  if (alookup b.identifier r.dict).isSome then
    (r, some (.pyHieraError ("Backend with identifier '" ++ b.identifier ++ "' already exists")))
  else
    match r.dict.find? (fun p => p.2.priority == b.priority) with
    | some p =>
      (r, some (.pyHieraError ("Backend '" ++ b.identifier ++ "' cannot use priority "
        ++ toString b.priority ++ " (already used by '" ++ p.2.identifier ++ "')")))
    | none =>
      let dict := r.dict ++ [(b.identifier, b)]
      (⟨dict, recreate_list dict⟩, none)

/-- `PyHieraBackendsBase.delete` (hiera.py:264-278): `del` the dict entry
(first — and only — binding of the identifier) and rebuild the cached list;
a missing identifier raises. -/
def BackendsRegistry.delete (r : BackendsRegistry) (identifier : String) :
    BackendsRegistry × Option PyErr :=
  if (alookup identifier r.dict).isSome then
    let dict := r.dict.eraseP (fun p => p.1 == identifier)
    (⟨dict, recreate_list dict⟩, none)
  else
    (r, some (.pyHieraError ("Backend with identifier " ++ identifier ++ " not found")))

/-- Registry states reachable from a fresh registry by successful `add` and
`delete` calls (a raised exception means the call did not succeed). -/
inductive BackendsRegistry.Reach : BackendsRegistry → Prop where
  | init : BackendsRegistry.Reach BackendsRegistry.empty
  | add {r b} : BackendsRegistry.Reach r → (r.add b).2 = none →
      BackendsRegistry.Reach (r.add b).1
  | del {r i} : BackendsRegistry.Reach r → (r.delete i).2 = none →
      BackendsRegistry.Reach (r.delete i).1

/-- The state of a `PyHieraSync` instance: the key registry (`PyHieraKeys`,
mapping key name to its bound schema) and the backend registry.  The key
model registry only feeds `key_add` and is not needed by the resolution
claims. -/
structure HieraState where
  keys : List (String × PyKey)
  backends : BackendsRegistry

/-- `PyHieraKeys.validate` / `PyHieraBase.key_data_validate`
(hiera.py:184-211, 443-459): look up the key's model, construct it on the
data (an unknown key raises "Key ... not found"; a schema failure is wrapped
into "Invalid data for key ...").  Python's `if sources:` is falsy for both
`None` and `[]`, so only a non-empty source list is attached. -/
def key_data_validate (st : HieraState) (key : String) (data : Value)
    (sources : Option (List BackendData)) : Except PyErr DataResult :=
  match alookup key st.keys with
  | none => .error (.pyHieraError ("Key " ++ key ++ " not found"))
  | some k =>
    match k.validate data with
    | .error err => .error (.pyHieraError ("Invalid data for key " ++ key ++ ": " ++ err))
    | .ok v =>
      match sources with
      | some (s :: ss) => .ok { sources := some (s :: ss), data := v }
      | _ => .ok { sources := none, data := v }

/-- The backend loop of `PyHieraSync.key_data_get` (hiera.py:686-693): scan
the priority-ordered list; the first backend returning a non-empty match
list wins with its first match; an exhausted loop raises "No data found". -/
def key_data_get_loop (st : HieraState) (key : String) (facts : Facts)
    (include_sources : Bool) : List Backend → Except PyErr DataResult
  | [] => .error (.pyHieraBackendError "No data found")
  | b :: rest =>
    match b.key_data_get key facts with
    | .error e => .error e
    | .ok [] => key_data_get_loop st key facts include_sources rest
    | .ok (d :: _) =>
      if include_sources then key_data_validate st key d.data (some [d])
      else key_data_validate st key d.data none

/-- `PyHieraSync.key_data_get` (hiera.py:678-693): first-match resolve. -/
def key_data_get (st : HieraState) (key : String) (facts : Facts)
    (include_sources : Bool) : Except PyErr DataResult :=
  if (alookup key st.keys).isNone then
    .error (.pyHieraError ("Key " ++ key ++ " not found"))
  else
    key_data_get_loop st key facts include_sources st.backends.list

/-- The per-data-point body of the collection loop of
`PyHieraSync.key_data_get_merge` (hiera.py:708-719): a non-dict raw value
raises the merge type guard; otherwise the value is validated and the data
point's `data` is overwritten in place with the normalized value. -/
def process_points (st : HieraState) (key : String) :
    List BackendData → Except PyErr (List BackendData)
  | [] => .ok []
  | dp :: rest =>
    if dp.data.isDict then
      match key_data_validate st key dp.data none with
      | .error e => .error e
      | .ok res =>
        match process_points st key rest with
        | .error e => .error e
        | .ok more => .ok ({ dp with data := res.data } :: more)
    else
      .error (.pyHieraBackendError ("Invalid data for key " ++ key
        ++ ", expected dict, got: " ++ pyStr dp.data))

/-- The backend loop of `PyHieraSync.key_data_get_merge` (hiera.py:705-719):
collect the validated data points of every backend, in priority order,
keeping each backend's matches in its own level order. -/
def merge_collect (st : HieraState) (key : String) (facts : Facts) :
    List Backend → Except PyErr (List BackendData)
  | [] => .ok []
  | b :: rest =>
    match b.key_data_get key facts with
    | .error e => .error e
    | .ok pts =>
      match process_points st key pts with
      | .error e => .error e
      | .ok vpts =>
        match merge_collect st key facts rest with
        | .error e => .error e
        | .ok more => .ok (vpts ++ more)

/-- The fold loop of `PyHieraSync.key_data_get_merge` (hiera.py:724-726),
after reversal: merge each data point's dict into the accumulator; `none` is
the uncaught `AttributeError` were a point's data not a dict (the collection
guard makes that unreachable from the resolver). -/
def merge_fold_go : List BackendData → Value → Option Value
  | [], acc => some acc
  | dp :: rest, acc =>
    match dp.data with
    | .vdict u =>
      match _key_data_get_merge u acc with
      | some acc' => merge_fold_go rest acc'
      | none => none
    | _ => none

/-- hiera.py:724-726: `merged_data = {}` then fold the collected data points
in reversed (reverse discovery) order. -/
def merge_fold (pts : List BackendData) : Option Value :=
  merge_fold_go pts.reverse (.vdict [])

/-- `PyHieraSync.key_data_get_merge` (hiera.py:695-731): merge resolve. -/
def key_data_get_merge (st : HieraState) (key : String) (facts : Facts)
    (include_sources : Bool) : Except PyErr DataResult :=
  if (alookup key st.keys).isNone then
    .error (.pyHieraError ("Key " ++ key ++ " not found"))
  else
    match merge_collect st key facts st.backends.list with
    | .error e => .error e
    | .ok [] => .error (.pyHieraBackendError "No data found")
    | .ok (p :: ps) =>
      match merge_fold (p :: ps) with
      | none => .error (.pythonError "unsupported operand type for deep merge")
      | some merged =>
        if include_sources then key_data_validate st key merged (some (p :: ps))
        else key_data_validate st key merged none

/-- The raw matches the backends report for a key, in discovery order —
the same traversal as the collection loop but before the in-place
normalization of each data point's `data`. -/
def collect_raw (key : String) (facts : Facts) : List Backend → Except PyErr (List BackendData)
  | [] => .ok []
  | b :: rest =>
    match b.key_data_get key facts with
    | .error e => .error e
    | .ok pts =>
      match collect_raw key facts rest with
      | .error e => .error e
      | .ok more => .ok (pts ++ more)

/-- A schema that accepts anything and returns it unchanged
(`PyHieraModelDataBase` with `data: Any`, as the test-suite's dynamic dict
model behaves on already-plain data). -/
def anyKey : PyKey := ⟨fun v => .ok v⟩

/-- A schema accepting only strings (`PyHieraModelDataString`). -/
def strKey : PyKey := ⟨fun v =>
  match v with
  | .vstr s => .ok (.vstr s)
  | _ => .error "Input should be a valid string"⟩

theorem key_data_get_loop_all_empty (st : HieraState) (key : String) (facts : Facts)
    (inc : Bool) (bs : List Backend)
    (h : ∀ b ∈ bs, b.key_data_get key facts = .ok []) :
    key_data_get_loop st key facts inc bs = .error (.pyHieraBackendError "No data found") := by
  induction bs with
  | nil => rfl
  | cons b rest ih =>
    have hb := h b (List.mem_cons_self b rest)
    simp only [key_data_get_loop, hb]
    exact ih (fun b' hb' => h b' (List.mem_cons_of_mem b hb'))

theorem key_data_get_loop_append (st : HieraState) (key : String) (facts : Facts)
    (inc : Bool) (pre bs : List Backend)
    (h : ∀ b ∈ pre, b.key_data_get key facts = .ok []) :
    key_data_get_loop st key facts inc (pre ++ bs) =
      key_data_get_loop st key facts inc bs := by
  induction pre with
  | nil => rfl
  | cons b rest ih =>
    have hb := h b (List.mem_cons_self b rest)
    simp only [List.cons_append, key_data_get_loop, hb]
    exact ih (fun b' hb' => h b' (List.mem_cons_of_mem b hb'))

theorem merge_collect_all_empty (st : HieraState) (key : String) (facts : Facts)
    (bs : List Backend)
    (h : ∀ b ∈ bs, b.key_data_get key facts = .ok []) :
    merge_collect st key facts bs = .ok [] := by
  induction bs with
  | nil => rfl
  | cons b rest ih =>
    have hb := h b (List.mem_cons_self b rest)
    simp only [merge_collect, hb]
    rw [ih (fun b' hb' => h b' (List.mem_cons_of_mem b hb'))]
    rfl

/--
C1.  First-match resolve: with the key registered and the priority-ordered
backend list splitting as `pre ++ b :: post` where every backend in `pre`
reports no match and `b` reports `d :: ds`, `key_data_get` returns exactly
the schema validation of `d.data` with `[d]` as provenance when
`include_sources` is set — independent of the backends in `post` and of the
later matches `ds` of the answering backend (neither occurs in the result).
-/
theorem claim_C1_first_match (st : HieraState) (key : String) (facts : Facts)
    (inc : Bool) (K : PyKey) (pre post : List Backend) (b : Backend)
    (d : BackendData) (ds : List BackendData)
    (hreg : alookup key st.keys = some K)
    (hlist : st.backends.list = pre ++ b :: post)
    (hpre : ∀ b' ∈ pre, b'.key_data_get key facts = .ok [])
    (hb : b.key_data_get key facts = .ok (d :: ds)) :
    key_data_get st key facts inc =
      key_data_validate st key d.data (if inc then some [d] else none) ∧
    (∀ v, K.validate d.data = .ok v →
      key_data_get st key facts true = .ok { sources := some [d], data := v }) := by
  have hne : (alookup key st.keys).isNone = false := by rw [hreg]; rfl
  have hmain : ∀ i : Bool, key_data_get st key facts i =
      key_data_validate st key d.data (if i then some [d] else none) := by
    intro i
    unfold key_data_get
    rw [hne]
    simp only [Bool.false_eq_true, if_false, hlist]
    rw [key_data_get_loop_append st key facts i pre (b :: post) hpre]
    simp only [key_data_get_loop, hb]
    cases i <;> rfl
  refine ⟨hmain inc, fun v hv => ?_⟩
  rw [hmain true]
  simp only [if_true]
  unfold key_data_validate
  rw [hreg]
  simp only [hv]

def w1 : Backend := ⟨"w1", 1, ["common.yaml"], fun _ _ => []⟩

def w2dp : BackendData := ⟨"w2", 2, "common.yaml", "k", .vstr "B"⟩

def w2later : BackendData := ⟨"w2", 2, "fallback.yaml", "k", .vstr "C"⟩

def w2 : Backend := ⟨"w2", 2, ["common.yaml"], fun _ _ => [w2dp, w2later]⟩

def w3 : Backend := ⟨"w3", 3, ["common.yaml"], fun _ _ => [w2later]⟩

def stC1 : HieraState := ⟨[("k", anyKey)], ⟨[("w1", w1), ("w2", w2), ("w3", w3)], [w1, w2, w3]⟩⟩

/-- Witness for C1 at a concrete three-backend state: backend `w1` has no
match, `w2` answers with two matches, `w3` would answer too; the result is
`w2`'s first match with singleton provenance. -/
theorem claim_C1_first_match_witness :
    key_data_get stC1 "k" [] true =
      key_data_validate stC1 "k" w2dp.data (if true then some [w2dp] else none) ∧
    key_data_get stC1 "k" [] true = .ok { sources := some [w2dp], data := .vstr "B" } := by
  have h := claim_C1_first_match stC1 "k" [] true anyKey [w1] [w3] w2 w2dp [w2later]
    rfl rfl (by intro b' hb'; rw [List.mem_singleton.mp hb']; rfl) rfl
  exact ⟨h.1, h.2 (.vstr "B") rfl⟩

/--
C4.  Lookup error distinction: with the key unregistered, both `key_data_get`
and `key_data_get_merge` fail with the `PyHieraError` "Key ... not found",
whatever the backends hold (the check precedes any backend call, so the
conclusion does not depend on the state's backend registry); with the key
registered but every backend reporting no match, both fail with the
`PyHieraBackendError` "No data found" and never return a value; the two
exceptions differ.
-/
theorem claim_C4_error_distinction :
    (∀ (st : HieraState) (key : String) (facts : Facts) (inc : Bool),
      alookup key st.keys = none →
      key_data_get st key facts inc =
        .error (.pyHieraError ("Key " ++ key ++ " not found")) ∧
      key_data_get_merge st key facts inc =
        .error (.pyHieraError ("Key " ++ key ++ " not found"))) ∧
    (∀ (st : HieraState) (key : String) (facts : Facts) (inc : Bool),
      (alookup key st.keys).isSome = true →
      (∀ b ∈ st.backends.list, b.key_data_get key facts = .ok []) →
      key_data_get st key facts inc = .error (.pyHieraBackendError "No data found") ∧
      key_data_get_merge st key facts inc = .error (.pyHieraBackendError "No data found")) ∧
    (∀ key : String,
      PyErr.pyHieraError ("Key " ++ key ++ " not found") ≠
        PyErr.pyHieraBackendError "No data found") := by
  refine ⟨?_, ?_, ?_⟩
  · intro st key facts inc h
    have hn : (alookup key st.keys).isNone = true := by rw [h]; rfl
    constructor
    · unfold key_data_get; rw [hn]; rfl
    · unfold key_data_get_merge; rw [hn]; rfl
  · intro st key facts inc h hall
    have hn : (alookup key st.keys).isNone = false := by
      cases hx : alookup key st.keys
      · rw [hx] at h; exact absurd h (by simp)
      · rfl
    constructor
    · unfold key_data_get
      rw [hn]
      simp only [Bool.false_eq_true, if_false]
      exact key_data_get_loop_all_empty st key facts inc _ hall
    · unfold key_data_get_merge
      rw [hn]
      simp only [Bool.false_eq_true, if_false]
      rw [merge_collect_all_empty st key facts _ hall]
  · intro key h
    cases h

def stC4a : HieraState := ⟨[], ⟨[("w2", w2)], [w2]⟩⟩

def stC4b : HieraState := ⟨[("k", anyKey)], ⟨[("w1", w1)], [w1]⟩⟩

/-- Witness for C4: an unregistered key fails "Key k not found" even though a
backend (`w2`) has matches; a registered key over a matchless backend fails
"No data found". -/
theorem claim_C4_error_distinction_witness :
    key_data_get stC4a "k" [] true =
      .error (.pyHieraError "Key k not found") ∧
    key_data_get_merge stC4b "k" [] true =
      .error (.pyHieraBackendError "No data found") :=
  ⟨(claim_C4_error_distinction.1 stC4a "k" [] true rfl).1,
   (claim_C4_error_distinction.2.1 stC4b "k" [] true rfl
     (by intro b hb; rw [List.mem_singleton.mp hb]; rfl)).2⟩

/--
C5.  Backend registration uniqueness with atomic failure: for every registry
state, adding a backend whose identifier is already registered, or whose
priority is already used by any registered backend, raises an exception and
returns with both the identifier dict and the cached priority-ordered list
exactly as they were before the call.
-/
theorem claim_C5_add_unique (r : BackendsRegistry) (b : Backend)
    (h : (alookup b.identifier r.dict).isSome = true ∨
      r.dict.any (fun p => p.2.priority == b.priority) = true) :
    (r.add b).2.isSome = true ∧ (r.add b).1 = r := by
  unfold BackendsRegistry.add
  by_cases hid : (alookup b.identifier r.dict).isSome = true
  · rw [if_pos hid]; exact ⟨rfl, rfl⟩
  · have hpr : r.dict.any (fun p => p.2.priority == b.priority) = true := by
      rcases h with h | h
      · exact absurd h hid
      · exact h
    rw [if_neg hid]
    rcases hx : r.dict.find? (fun p => p.2.priority == b.priority) with _ | p
    · rw [List.find?_eq_none] at hx
      rcases List.any_eq_true.mp hpr with ⟨q, hq, hqp⟩
      exact absurd hqp (hx q hq)
    · rw [hx]
      exact ⟨rfl, rfl⟩

def bIdent1 : Backend := ⟨"a", 1, [], fun _ _ => []⟩

def bIdent2 : Backend := ⟨"a", 2, [], fun _ _ => []⟩

def regC5 : BackendsRegistry := (BackendsRegistry.empty.add bIdent1).1

/-- Witness for C5: after registering identifier "a" at priority 1, adding a
second backend named "a" fails and leaves the registry untouched. -/
theorem claim_C5_add_unique_witness :
    (alookup bIdent2.identifier regC5.dict).isSome = true ∧
    (regC5.add bIdent2).2.isSome = true ∧ (regC5.add bIdent2).1 = regC5 :=
  ⟨rfl, claim_C5_add_unique regC5 bIdent2 (Or.inl rfl)⟩

/-- Internal invariant of the backend registry: the cached list is the
rebuilt sorted view of the dict, and the registered priorities are pairwise
distinct. -/
def BackendsRegistry.Inv (r : BackendsRegistry) : Prop :=
  r.list = recreate_list r.dict ∧ (r.dict.map (fun p => p.2.priority)).Nodup

theorem BackendsRegistry.inv_add {r : BackendsRegistry} {b : Backend}
    (hr : r.Inv) (h : (r.add b).2 = none) : (r.add b).1.Inv := by
  unfold BackendsRegistry.add at h ⊢
  by_cases hid : (alookup b.identifier r.dict).isSome = true
  · rw [if_pos hid] at h; cases h
  · rw [if_neg hid] at h ⊢
    rcases hx : r.dict.find? (fun p => p.2.priority == b.priority) with _ | p
    · rw [hx]
      refine ⟨rfl, ?_⟩
      rw [List.find?_eq_none] at hx
      rw [List.map_append]
      apply List.Nodup.append hr.2 (List.nodup_singleton _)
      intro x hx1 hx2
      rcases List.mem_map.mp hx1 with ⟨q, hq, hqx⟩
      rcases List.mem_singleton.mp hx2
      exact absurd (beq_iff_eq.mpr hqx) (hx q hq)
    · rw [hx] at h; cases h

theorem BackendsRegistry.inv_del {r : BackendsRegistry} {i : String}
    (hr : r.Inv) (h : (r.delete i).2 = none) : (r.delete i).1.Inv := by
  unfold BackendsRegistry.delete at h ⊢
  by_cases hid : (alookup i r.dict).isSome = true
  · rw [if_pos hid]
    exact ⟨rfl, hr.2.sublist (List.Sublist.map _ (List.eraseP_sublist _))⟩
  · rw [if_neg hid] at h; cases h

theorem BackendsRegistry.inv_reach {r : BackendsRegistry}
    (h : BackendsRegistry.Reach r) : r.Inv := by
  induction h with
  | init => exact ⟨rfl, List.nodup_nil⟩
  | add hr hok ih => exact BackendsRegistry.inv_add ih hok
  | del hr hok ih => exact BackendsRegistry.inv_del ih hok

theorem pairwise_lt_of_le_nodup : ∀ l : List Backend, List.Pairwise prioLE l →
    (l.map (fun x => x.priority)).Nodup →
    List.Pairwise (fun a b : Backend => a.priority < b.priority) l := by
  intro l
  induction l with
  | nil => intro _ _; exact List.Pairwise.nil
  | cons a rest ih =>
    intro hle hnd
    rw [List.map_cons, List.nodup_cons] at hnd
    rcases List.pairwise_cons.mp hle with ⟨ha, hrest⟩
    refine List.pairwise_cons.mpr ⟨?_, ih hrest hnd.2⟩
    intro b hb
    refine lt_of_le_of_ne (ha b hb) ?_
    intro hcontra
    exact hnd.1 (List.mem_map.mpr ⟨b, hb, hcontra.symm⟩)

/--
C6.  Priority ordering invariant: after any sequence of successful `add` and
`delete` operations on the backend registry, the cached `backends` list is a
permutation of the registered backends (the dict's values) and is strictly
ascending in priority — the priorities in it are pairwise distinct whatever
the insertion order was.
-/
theorem claim_C6_priority_order (r : BackendsRegistry)
    (h : BackendsRegistry.Reach r) :
    r.list.Perm (r.dict.map Prod.snd) ∧
    List.Pairwise (fun a b : Backend => a.priority < b.priority) r.list := by
  rcases BackendsRegistry.inv_reach h with ⟨hlist, hnd⟩
  have hperm : r.list.Perm (r.dict.map Prod.snd) := by
    rw [hlist]
    exact List.perm_insertionSort prioLE _
  refine ⟨hperm, ?_⟩
  apply pairwise_lt_of_le_nodup r.list
  · rw [hlist]
    exact List.sorted_insertionSort prioLE _
  · have : (r.list.map (fun x => x.priority)).Perm (r.dict.map (fun p => p.2.priority)) := by
      have := hperm.map (fun x : Backend => x.priority)
      rwa [List.map_map] at this
    exact this.nodup_iff.mpr hnd

def cb1 : Backend := ⟨"x", 5, [], fun _ _ => []⟩

def cb2 : Backend := ⟨"y", 2, [], fun _ _ => []⟩

def cb3 : Backend := ⟨"z", 9, [], fun _ _ => []⟩

def regC6 : BackendsRegistry :=
  (((((BackendsRegistry.empty.add cb1).1.add cb2).1.add cb3).1).delete "x").1

/-- Witness for C6 at a registry built by three inserts (priorities 5, 2, 9,
out of order) and one delete. -/
theorem claim_C6_priority_order_witness :
    regC6.list.Perm (regC6.dict.map Prod.snd) ∧
    List.Pairwise (fun a b : Backend => a.priority < b.priority) regC6.list :=
  claim_C6_priority_order regC6
    (BackendsRegistry.Reach.del
      (BackendsRegistry.Reach.add
        (BackendsRegistry.Reach.add
          (BackendsRegistry.Reach.add BackendsRegistry.Reach.init rfl) rfl) rfl) rfl)

theorem alookup_aset_self (k : String) (v : α) : ∀ d, alookup k (aset k v d) = some v := by
  intro d
  induction d with
  | nil => simp [aset, alookup]
  | cons p rest ih =>
    rcases p with ⟨k', v'⟩
    by_cases h : k' = k
    · simp [aset, alookup, h]
    · simp [aset, alookup, h, ih]

theorem alookup_aset_ne (k k' : String) (v : α) (h : k' ≠ k) :
    ∀ d, alookup k (aset k' v d) = alookup k d := by
  intro d
  induction d with
  | nil => simp [aset, alookup, h]
  | cons p rest ih =>
    rcases p with ⟨k₀, v₀⟩
    by_cases h0 : k₀ = k'
    · subst h0
      simp [aset, alookup, h]
    · by_cases h1 : k₀ = k <;> simp [aset, alookup, h0, h1, ih, h, Ne.symm h]

theorem aset_absent (k : String) (v : α) :
    ∀ d, alookup k d = none → aset k v d = d ++ [(k, v)] := by
  intro d
  induction d with
  | nil => intro _; rfl
  | cons p rest ih =>
    rcases p with ⟨k₀, v₀⟩
    intro h
    by_cases h0 : k₀ = k
    · rw [alookup, if_pos h0] at h; cases h
    · rw [alookup, if_neg h0] at h
      simp [aset, h0, ih h]

theorem merge_entry_decomp (k : String) (v : Value) (rest : List (String × Value))
    (d : List (String × Value)) :
    _key_data_get_merge ((k, v) :: rest) (.vdict d) =
      match _key_data_get_merge [(k, v)] (.vdict d) with
      | some r => _key_data_get_merge rest r
      | none => none := by
  cases v with
  | vdict u =>
    cases hm : _key_data_get_merge u ((alookup k d).getD (.vdict [])) with
    | none => simp [_key_data_get_merge, hm]
    | some m => simp [_key_data_get_merge, hm]
  | vlist l =>
    cases hl : alookup k d with
    | none => simp [_key_data_get_merge, hl]
    | some w => cases w <;> simp [_key_data_get_merge, hl]
  | vset s =>
    cases hl : alookup k d with
    | none => simp [_key_data_get_merge, hl]
    | some w => cases w <;> simp [_key_data_get_merge, hl]
  | vstr s => simp [_key_data_get_merge]
  | vint n => simp [_key_data_get_merge]
  | vbool b => simp [_key_data_get_merge]
  | vnone => simp [_key_data_get_merge]

/--
C3.  Deep merge per-type rules: every update value falls into exactly one of
dict/list/set/scalar; entries are processed one at a time; a dict value is
merged recursively into the accumulator's entry (an empty dict created —
appended — first when the key is absent); a list value is appended
element-by-element onto an existing list or copied in as a new entry; a set
value is unioned into an existing set (membership in the union is membership
in either operand) or copied in as a new entry; any other value overwrites
unconditionally.  In particular merging `{servers: [s3]}` into
`{servers: [s1, s2]}` yields `{servers: [s1, s2, s3]}`.
-/
theorem claim_C3_merge_type_rules :
    (∀ v : Value, (v.isDict || v.isList || v.isSet || v.isScalar) = true) ∧
    (∀ (k : String) (v : Value) rest d,
      _key_data_get_merge ((k, v) :: rest) (.vdict d) =
        match _key_data_get_merge [(k, v)] (.vdict d) with
        | some r => _key_data_get_merge rest r
        | none => none) ∧
    (∀ (k : String) u d m, alookup k d = none →
      _key_data_get_merge u (.vdict []) = some m →
      _key_data_get_merge [(k, .vdict u)] (.vdict d) = some (.vdict (d ++ [(k, m)]))) ∧
    (∀ (k : String) u d d₀ m, alookup k d = some (.vdict d₀) →
      _key_data_get_merge u (.vdict d₀) = some m →
      _key_data_get_merge [(k, .vdict u)] (.vdict d) = some (.vdict (aset k m d))) ∧
    (∀ (k : String) l d l₀, alookup k d = some (.vlist l₀) →
      _key_data_get_merge [(k, .vlist l)] (.vdict d) =
        some (.vdict (aset k (.vlist (l₀ ++ l)) d))) ∧
    (∀ (k : String) l d, alookup k d = none →
      _key_data_get_merge [(k, .vlist l)] (.vdict d) =
        some (.vdict (d ++ [(k, .vlist l)]))) ∧
    (∀ (k : String) s d s₀, alookup k d = some (.vset s₀) →
      _key_data_get_merge [(k, .vset s)] (.vdict d) =
        some (.vdict (aset k (.vset (setUpdate s₀ s)) d)) ∧
      ∀ x : Value, x ∈ setUpdate s₀ s ↔ x ∈ s₀ ∨ x ∈ s) ∧
    (∀ (k : String) s d, alookup k d = none →
      _key_data_get_merge [(k, .vset s)] (.vdict d) =
        some (.vdict (d ++ [(k, .vset s)]))) ∧
    (∀ (k : String) (v : Value) d, v.isScalar = true →
      _key_data_get_merge [(k, v)] (.vdict d) = some (.vdict (aset k v d)) ∧
      alookup k (aset k v d) = some v) ∧
    (_key_data_get_merge [("servers", .vlist [.vstr "s3"])]
        (.vdict [("servers", .vlist [.vstr "s1", .vstr "s2"])]) =
      some (.vdict [("servers", .vlist [.vstr "s1", .vstr "s2", .vstr "s3"])])) := by
  refine ⟨?_, merge_entry_decomp, ?_, ?_, ?_, ?_, ?_, ?_, ?_, by decide⟩
  · intro v; cases v <;> rfl
  · intro k u d m habs hm
    simp [_key_data_get_merge, habs, hm, aset_absent k m d habs]
  · intro k u d d₀ m hl hm
    simp [_key_data_get_merge, hl, hm]
  · intro k l d l₀ hl
    simp [_key_data_get_merge, hl]
  · intro k l d habs
    simp [_key_data_get_merge, habs, aset_absent k (Value.vlist l) d habs]
  · intro k s d s₀ hl
    refine ⟨by simp [_key_data_get_merge, hl], ?_⟩
    intro x
    by_cases hx : x ∈ s₀ <;>
      simp [setUpdate, List.mem_append, List.mem_filter, List.contains, List.elem_eq_mem, hx]
  · intro k s d habs
    simp [_key_data_get_merge, habs, aset_absent k (Value.vset s) d habs]
  · intro k v d hs
    refine ⟨?_, alookup_aset_self k v d⟩
    cases v <;> simp_all [_key_data_get_merge, Value.isScalar]

/-- Witness for C3 (its general conjuncts carry hypotheses): the list-append
rule at key "servers". -/
theorem claim_C3_merge_type_rules_witness :
    _key_data_get_merge [("servers", .vlist [.vstr "s3"])]
        (.vdict [("servers", .vlist [.vstr "s1", .vstr "s2"])]) =
      some (.vdict (aset "servers" (.vlist ([.vstr "s1", .vstr "s2"] ++ [.vstr "s3"]))
        [("servers", .vlist [.vstr "s1", .vstr "s2"])]) ) :=
  claim_C3_merge_type_rules.2.2.2.2.1 "servers" [.vstr "s3"]
    [("servers", .vlist [.vstr "s1", .vstr "s2"])] [.vstr "s1", .vstr "s2"] rfl

/-- Whether `k` occurs among the keys of the entry list. -/
def keyMem (k : String) (l : List (String × Value)) : Bool :=
  l.any (fun p => p.1 == k)

mutual

/-- Well-formedness of a value as Python produces it: every dict reachable
through dict nesting has pairwise-distinct keys (a Python `dict` cannot hold
duplicate keys; the merger recurses only into dict values, so only those
need the nested condition — values inside lists and sets are copied, not
recursed into). -/
def valWF : Value → Bool
  | .vdict u => dictWF u
  | _ => true

def dictWF : List (String × Value) → Bool
  | [] => true
  | (k, v) :: rest => !(keyMem k rest) && (valWF v && dictWF rest)

end

theorem alookup_append (k : String) (d e : List (String × α)) :
    alookup k (d ++ e) = ((alookup k d).or (alookup k e)) := by
  induction d with
  | nil => rfl
  | cons p rest ih =>
    rcases p with ⟨k₀, v₀⟩
    by_cases h : k₀ = k <;> simp [alookup, h, ih]

theorem keyMem_false (k : String) (l : List (String × Value)) (h : keyMem k l = false) :
    ∀ p ∈ l, p.1 ≠ k := by
  intro p hp h'
  exact absurd (beq_iff_eq.mpr h') (List.any_eq_false.mp h p hp)

theorem merge_disjoint : ∀ (u d : List (String × Value)),
    dictWF u = true → (∀ p ∈ u, alookup p.1 d = none) →
    _key_data_get_merge u (.vdict d) = some (.vdict (d ++ u))
  | [], d, _, _ => by simp [_key_data_get_merge]
  | (k, v) :: rest, d, hwf, hdisj => by
    replace hwf : (!(keyMem k rest) && (valWF v && dictWF rest)) = true := hwf
    simp only [Bool.and_eq_true, Bool.not_eq_eq_eq_not, Bool.not_true] at hwf
    have habs : alookup k d = none := hdisj (k, v) (List.mem_cons_self _ _)
    have hkm := keyMem_false k rest hwf.1
    have hdisj' : ∀ w : Value, ∀ p ∈ rest, alookup p.1 (d ++ [(k, w)]) = none := by
      intro w p hp
      rw [alookup_append, hdisj p (List.mem_cons_of_mem _ hp)]
      rw [alookup, if_neg (fun hq => hkm p hp hq.symm)]
      rfl
    have hstep : ∀ w : Value, _key_data_get_merge rest (.vdict (d ++ [(k, w)])) =
        some (.vdict (d ++ (k, w) :: rest)) := by
      intro w
      rw [merge_disjoint rest (d ++ [(k, w)]) hwf.2.2 (hdisj' w), List.append_assoc]
      rfl
    cases v with
    | vdict u' =>
      have hu : dictWF u' = true := hwf.2.1
      have hinner := merge_disjoint u' [] hu (fun p _ => rfl)
      rw [List.nil_append] at hinner
      simp only [_key_data_get_merge, habs, Option.getD_none, hinner,
        aset_absent k (Value.vdict u') d habs]
      exact hstep (Value.vdict u')
    | vlist l =>
      simp only [_key_data_get_merge, habs, aset_absent k (Value.vlist l) d habs]
      exact hstep (Value.vlist l)
    | vset s =>
      simp only [_key_data_get_merge, habs, aset_absent k (Value.vset s) d habs]
      exact hstep (Value.vset s)
    | vstr sv =>
      simp only [_key_data_get_merge, aset_absent k (Value.vstr sv) d habs]
      exact hstep (Value.vstr sv)
    | vint n =>
      simp only [_key_data_get_merge, aset_absent k (Value.vint n) d habs]
      exact hstep (Value.vint n)
    | vbool bv =>
      simp only [_key_data_get_merge, aset_absent k (Value.vbool bv) d habs]
      exact hstep (Value.vbool bv)
    | vnone =>
      simp only [_key_data_get_merge, aset_absent k Value.vnone d habs]
      exact hstep Value.vnone

/--
C9.  The empty accumulator is a right identity of the deep merge: for every
well-formed dict `u` (pairwise-distinct keys at each dict level, as every
Python dict has), merging `u` into a fresh empty accumulator yields exactly
`u` back (syntactic equality, which implies extensional equality).
-/
theorem claim_C9_merge_empty_identity (u : List (String × Value))
    (h : dictWF u = true) :
    _key_data_get_merge u (.vdict []) = some (.vdict u) := by
  have := merge_disjoint u [] h (fun p _ => rfl)
  rwa [List.nil_append] at this

/-- Witness for C9 at a nested concrete dict with a dict, a list, a set and
scalars. -/
theorem claim_C9_merge_empty_identity_witness :
    _key_data_get_merge
        [("a", .vdict [("x", .vint 1), ("y", .vstr "v")]),
         ("b", .vlist [.vstr "s", .vstr "s"]),
         ("c", .vset [.vint 2]),
         ("d", .vbool true)]
        (.vdict []) =
      some (.vdict
        [("a", .vdict [("x", .vint 1), ("y", .vstr "v")]),
         ("b", .vlist [.vstr "s", .vstr "s"]),
         ("c", .vset [.vint 2]),
         ("d", .vbool true)]) :=
  claim_C9_merge_empty_identity _ (by decide)

/-- The keys a dict value carries at top level (empty for non-dicts). -/
def topKeys : Value → List String
  | .vdict d => d.map Prod.fst
  | _ => []

/-- Lookup of `k` in a value when it is a dict. -/
def valLookup (k : String) : Value → Option Value
  | .vdict d => alookup k d
  | _ => none

theorem merge_lookup_preserve : ∀ (u : List (String × Value)) (acc acc' : Value) (k : String),
    _key_data_get_merge u acc = some acc' → (∀ p ∈ u, p.1 ≠ k) →
    valLookup k acc' = valLookup k acc
  | [], acc, acc', _, h, _ => by
    rw [(Option.some.inj h : acc = acc')]
  | (k₀, v) :: rest, acc, acc', k, h, hne => by
    have hk0 : k₀ ≠ k := hne (k₀, v) (List.mem_cons_self _ _)
    have hne' : ∀ p ∈ rest, p.1 ≠ k := fun p hp => hne p (List.mem_cons_of_mem _ hp)
    cases acc with
    | vdict d =>
      cases v with
      | vdict u' =>
        rcases hm : _key_data_get_merge u' ((alookup k₀ d).getD (.vdict [])) with _ | m
        · simp [_key_data_get_merge, hm] at h
        · simp only [_key_data_get_merge, hm] at h
          rw [merge_lookup_preserve rest _ _ k h hne']
          simp [valLookup, alookup_aset_ne k k₀ _ hk0]
      | vlist l =>
        rcases hl : alookup k₀ d with _ | w
        · simp only [_key_data_get_merge, hl] at h
          rw [merge_lookup_preserve rest _ _ k h hne']
          simp [valLookup, alookup_aset_ne k k₀ _ hk0]
        · cases w <;> simp only [_key_data_get_merge, hl] at h <;>
            first
            | (rw [merge_lookup_preserve rest _ _ k h hne']
               simp [valLookup, alookup_aset_ne k k₀ _ hk0])
            | cases h
      | vset s =>
        rcases hl : alookup k₀ d with _ | w
        · simp only [_key_data_get_merge, hl] at h
          rw [merge_lookup_preserve rest _ _ k h hne']
          simp [valLookup, alookup_aset_ne k k₀ _ hk0]
        · cases w <;> simp only [_key_data_get_merge, hl] at h <;>
            first
            | (rw [merge_lookup_preserve rest _ _ k h hne']
               simp [valLookup, alookup_aset_ne k k₀ _ hk0])
            | cases h
      | vstr sv =>
        simp only [_key_data_get_merge] at h
        rw [merge_lookup_preserve rest _ _ k h hne']
        simp [valLookup, alookup_aset_ne k k₀ _ hk0]
      | vint n =>
        simp only [_key_data_get_merge] at h
        rw [merge_lookup_preserve rest _ _ k h hne']
        simp [valLookup, alookup_aset_ne k k₀ _ hk0]
      | vbool bv =>
        simp only [_key_data_get_merge] at h
        rw [merge_lookup_preserve rest _ _ k h hne']
        simp [valLookup, alookup_aset_ne k k₀ _ hk0]
      | vnone =>
        simp only [_key_data_get_merge] at h
        rw [merge_lookup_preserve rest _ _ k h hne']
        simp [valLookup, alookup_aset_ne k k₀ _ hk0]
    | vlist l => cases v <;> simp [_key_data_get_merge] at h
    | vset s => cases v <;> simp [_key_data_get_merge] at h
    | vstr sv => cases v <;> simp [_key_data_get_merge] at h
    | vint n => cases v <;> simp [_key_data_get_merge] at h
    | vbool bv => cases v <;> simp [_key_data_get_merge] at h
    | vnone => cases v <;> simp [_key_data_get_merge] at h

theorem merge_lookup_scalar : ∀ (u : List (String × Value)) (acc acc' : Value)
    (k : String) (v : Value),
    _key_data_get_merge u acc = some acc' → alookup k u = some v →
    v.isScalar = true → (u.map Prod.fst).Nodup →
    valLookup k acc' = some v
  | [], _, _, k, v, _, hl, _, _ => by cases hl
  | (k₀, v₀) :: rest, acc, acc', k, v, h, hl, hs, hnd => by
    rw [List.map_cons, List.nodup_cons] at hnd
    by_cases hk : k₀ = k
    · subst hk
      rw [alookup, if_pos rfl] at hl
      have hv : v₀ = v := Option.some.inj hl
      subst hv
      have hrest : ∀ p ∈ rest, p.1 ≠ k₀ := fun p hp hq =>
        hnd.1 (List.mem_map.mpr ⟨p, hp, hq⟩)
      cases acc with
      | vdict d =>
        cases v₀ with
        | vdict u' => simp [Value.isScalar] at hs
        | vlist l => simp [Value.isScalar] at hs
        | vset s => simp [Value.isScalar] at hs
        | vstr sv =>
          simp only [_key_data_get_merge] at h
          rw [merge_lookup_preserve rest _ _ k₀ h hrest]
          simp [valLookup, alookup_aset_self]
        | vint n =>
          simp only [_key_data_get_merge] at h
          rw [merge_lookup_preserve rest _ _ k₀ h hrest]
          simp [valLookup, alookup_aset_self]
        | vbool bv =>
          simp only [_key_data_get_merge] at h
          rw [merge_lookup_preserve rest _ _ k₀ h hrest]
          simp [valLookup, alookup_aset_self]
        | vnone =>
          simp only [_key_data_get_merge] at h
          rw [merge_lookup_preserve rest _ _ k₀ h hrest]
          simp [valLookup, alookup_aset_self]
      | vlist l => cases v₀ <;> simp [_key_data_get_merge] at h
      | vset s => cases v₀ <;> simp [_key_data_get_merge] at h
      | vstr sv => cases v₀ <;> simp [_key_data_get_merge] at h
      | vint n => cases v₀ <;> simp [_key_data_get_merge] at h
      | vbool bv => cases v₀ <;> simp [_key_data_get_merge] at h
      | vnone => cases v₀ <;> simp [_key_data_get_merge] at h
    · rw [alookup, if_neg hk] at hl
      cases acc with
      | vdict d =>
        cases v₀ with
        | vdict u' =>
          rcases hm : _key_data_get_merge u' ((alookup k₀ d).getD (.vdict [])) with _ | m
          · simp [_key_data_get_merge, hm] at h
          · simp only [_key_data_get_merge, hm] at h
            exact merge_lookup_scalar rest _ _ k v h hl hs hnd.2
        | vlist l =>
          rcases hlk : alookup k₀ d with _ | w
          · simp only [_key_data_get_merge, hlk] at h
            exact merge_lookup_scalar rest _ _ k v h hl hs hnd.2
          · cases w <;> simp only [_key_data_get_merge, hlk] at h <;>
              first
              | exact merge_lookup_scalar rest _ _ k v h hl hs hnd.2
              | cases h
        | vset s =>
          rcases hlk : alookup k₀ d with _ | w
          · simp only [_key_data_get_merge, hlk] at h
            exact merge_lookup_scalar rest _ _ k v h hl hs hnd.2
          · cases w <;> simp only [_key_data_get_merge, hlk] at h <;>
              first
              | exact merge_lookup_scalar rest _ _ k v h hl hs hnd.2
              | cases h
        | vstr sv =>
          simp only [_key_data_get_merge] at h
          exact merge_lookup_scalar rest _ _ k v h hl hs hnd.2
        | vint n =>
          simp only [_key_data_get_merge] at h
          exact merge_lookup_scalar rest _ _ k v h hl hs hnd.2
        | vbool bv =>
          simp only [_key_data_get_merge] at h
          exact merge_lookup_scalar rest _ _ k v h hl hs hnd.2
        | vnone =>
          simp only [_key_data_get_merge] at h
          exact merge_lookup_scalar rest _ _ k v h hl hs hnd.2
      | vlist l => cases v₀ <;> simp [_key_data_get_merge] at h
      | vset s => cases v₀ <;> simp [_key_data_get_merge] at h
      | vstr sv => cases v₀ <;> simp [_key_data_get_merge] at h
      | vint n => cases v₀ <;> simp [_key_data_get_merge] at h
      | vbool bv => cases v₀ <;> simp [_key_data_get_merge] at h
      | vnone => cases v₀ <;> simp [_key_data_get_merge] at h

theorem merge_fold_go_append (l l' : List BackendData) (acc : Value) :
    merge_fold_go (l ++ l') acc =
      match merge_fold_go l acc with
      | some a => merge_fold_go l' a
      | none => none := by
  induction l generalizing acc with
  | nil => rfl
  | cons dp rest ih =>
    cases hd : dp.data with
    | vdict u =>
      cases hm : _key_data_get_merge u acc with
      | some a => simp [merge_fold_go, hd, hm, ih]
      | none => simp [merge_fold_go, hd, hm]
    | vlist l0 => simp [merge_fold_go, hd]
    | vset s => simp [merge_fold_go, hd]
    | vstr sv => simp [merge_fold_go, hd]
    | vint n => simp [merge_fold_go, hd]
    | vbool bv => simp [merge_fold_go, hd]
    | vnone => simp [merge_fold_go, hd]

theorem merge_fold_go_preserve (pts : List BackendData) (k : String) :
    ∀ (acc acc' : Value), merge_fold_go pts acc = some acc' →
    (∀ p ∈ pts, k ∉ topKeys p.data) →
    valLookup k acc' = valLookup k acc := by
  induction pts with
  | nil =>
    intro acc acc' h _
    rw [(Option.some.inj h : acc = acc')]
  | cons dp rest ih =>
    intro acc acc' h hk
    cases hd : dp.data with
    | vdict u =>
      simp only [merge_fold_go, hd] at h
      rcases hm : _key_data_get_merge u acc with _ | a
      · rw [hm] at h; cases h
      · rw [hm] at h
        have hku : ∀ p ∈ u, p.1 ≠ k := by
          intro p hp hq
          have := hk dp (List.mem_cons_self _ _)
          rw [hd] at this
          exact this (List.mem_map.mpr ⟨p, hp, hq⟩)
        rw [ih _ _ h (fun p hp => hk p (List.mem_cons_of_mem _ hp))]
        exact merge_lookup_preserve u acc a k hm hku
    | vlist l0 => simp [merge_fold_go, hd] at h
    | vset s => simp [merge_fold_go, hd] at h
    | vstr sv => simp [merge_fold_go, hd] at h
    | vint n => simp [merge_fold_go, hd] at h
    | vbool bv => simp [merge_fold_go, hd] at h
    | vnone => simp [merge_fold_go, hd] at h

def mdpSpec : BackendData :=
  ⟨"m", 1, "environment/prod.yaml", "cfg", .vdict [("timeout", .vint 60)]⟩

def mdpCommon : BackendData :=
  ⟨"m", 1, "common.yaml", "cfg", .vdict [("timeout", .vint 30), ("retries", .vint 3)]⟩

def mBackend : Backend :=
  ⟨"m", 1, ["environment/\x7benvironment\x7d.yaml", "common.yaml"],
    fun _ _ => [mdpSpec, mdpCommon]⟩

def stC2 : HieraState := ⟨[("cfg", anyKey)], ⟨[("m", mBackend)], [mBackend]⟩⟩

/--
C2.  Merge precedence: the collected data points are folded into an empty
accumulator in reverse discovery order, so whenever the whole fold succeeds,
any top-level key whose value in the earliest-discovered contributor
carrying it is a scalar ends up with exactly that contributor's value in the
merged dict (later-discovered contributors are merged first and then
overwritten).  Concretely, a backend whose specific level holds
`\x7btimeout: 60\x7d` and whose common level holds
`\x7btimeout: 30, retries: 3\x7d` resolves to
`\x7btimeout: 60, retries: 3\x7d`.
-/
theorem claim_C2_merge_precedence :
    (∀ (pts pre suf : List BackendData) (pnt : BackendData)
       (u m : List (String × Value)) (k : String) (v : Value),
      pts = pre ++ pnt :: suf →
      merge_fold pts = some (.vdict m) →
      (∀ p ∈ pre, k ∉ topKeys p.data) →
      pnt.data = .vdict u →
      (u.map Prod.fst).Nodup →
      alookup k u = some v →
      v.isScalar = true →
      alookup k m = some v) ∧
    key_data_get_merge stC2 "cfg" [("environment", "prod")] false =
      .ok { sources := none, data := .vdict [("timeout", .vint 60), ("retries", .vint 3)] } := by
  constructor
  · intro pts pre suf pnt u m k v hsplit hfold hpre hdata hnd hlk hs
    subst hsplit
    rw [merge_fold, List.reverse_append, List.reverse_cons] at hfold
    rw [merge_fold_go_append] at hfold
    cases h0 : merge_fold_go (suf.reverse ++ [pnt]) (.vdict []) with
    | none => rw [h0] at hfold; cases hfold
    | some acc₁ =>
      rw [h0] at hfold
      rw [merge_fold_go_append] at h0
      cases h1 : merge_fold_go suf.reverse (.vdict []) with
      | none => rw [h1] at h0; cases h0
      | some acc₀ =>
        rw [h1] at h0
        simp only [merge_fold_go, hdata] at h0
        cases h2 : _key_data_get_merge u acc₀ with
        | none => rw [h2] at h0; cases h0
        | some acc₂ =>
          rw [h2] at h0
          have hacc : acc₂ = acc₁ := Option.some.inj h0
          subst hacc
          have hval : valLookup k acc₂ = some v :=
            merge_lookup_scalar u acc₀ acc₂ k v h2 hlk hs hnd
          have hfin : valLookup k (Value.vdict m) = valLookup k acc₂ :=
            merge_fold_go_preserve pre.reverse k acc₂ (.vdict m) hfold
              (fun p hp => hpre p (List.mem_reverse.mp hp))
          rw [valLookup] at hfin
          rw [hfin, hval]
  · decide

/-- Witness for C2's general conjunct: in the two-contributor example, the
first contributor carrying "retries" is the common-level point (discovered
second), and its scalar survives the fold. -/
theorem claim_C2_merge_precedence_witness :
    alookup "retries" [("timeout", Value.vint 60), ("retries", Value.vint 3)] =
      some (Value.vint 3) :=
  claim_C2_merge_precedence.1 [mdpSpec, mdpCommon] [mdpSpec] [] mdpCommon
    [("timeout", Value.vint 30), ("retries", Value.vint 3)]
    [("timeout", Value.vint 60), ("retries", Value.vint 3)] "retries" (Value.vint 3)
    rfl (by decide) (by decide) rfl (by decide) rfl rfl

/-- A data point that passes the merge collection loop: its raw value is a
dict and the key's schema accepts it. -/
def okPoint (K : PyKey) (p : BackendData) : Bool :=
  p.data.isDict && (K.validate p.data).isOk

theorem process_points_ok (st : HieraState) (key : String) (K : PyKey)
    (hreg : alookup key st.keys = some K) :
    ∀ pts : List BackendData, (∀ p ∈ pts, okPoint K p = true) →
    ∃ res, process_points st key pts = .ok res := by
  intro pts
  induction pts with
  | nil => intro _; exact ⟨[], rfl⟩
  | cons dp rest ih =>
    intro h
    have hdp := h dp (List.mem_cons_self _ _)
    rw [okPoint, Bool.and_eq_true] at hdp
    rcases ih (fun p hp => h p (List.mem_cons_of_mem _ hp)) with ⟨more, hmore⟩
    cases hv : K.validate dp.data with
    | error e => rw [hv] at hdp; cases hdp.2
    | ok v =>
      refine ⟨{ dp with data := v } :: more, ?_⟩
      rw [process_points, if_pos hdp.1, key_data_validate, hreg]
      simp only [hv, hmore]

theorem process_points_bad (st : HieraState) (key : String) (K : PyKey)
    (hreg : alookup key st.keys = some K) (dp : BackendData) (psuf : List BackendData)
    (hdp : dp.data.isDict = false) :
    ∀ ppre : List BackendData, (∀ p ∈ ppre, okPoint K p = true) →
    process_points st key (ppre ++ dp :: psuf) =
      .error (.pyHieraBackendError ("Invalid data for key " ++ key
        ++ ", expected dict, got: " ++ pyStr dp.data)) := by
  intro ppre
  induction ppre with
  | nil =>
    intro _
    rw [List.nil_append, process_points, if_neg (by rw [hdp]; exact Bool.false_ne_true)]
  | cons p rest ih =>
    intro h
    have hp := h p (List.mem_cons_self _ _)
    rw [okPoint, Bool.and_eq_true] at hp
    cases hv : K.validate p.data with
    | error e => rw [hv] at hp; cases hp.2
    | ok v =>
      rw [List.cons_append, process_points, if_pos hp.1, key_data_validate, hreg]
      simp only [hv, ih (fun q hq => h q (List.mem_cons_of_mem _ hq))]

/--
C7 (amended).  Non-dict merge guard: during `key_data_get_merge`, when a
collected match has a non-dict raw value and everything the collection loop
processes before it succeeds (earlier backends report only dict-valued,
schema-accepted matches, and so do the earlier matches of the same backend),
the whole call fails with the `PyHieraBackendError` type error naming the
key, and no merged value is returned.  In particular a key all of whose
matches are scalars always fails this way (instantiate with empty
prefixes), whatever the schema would say.
-/
theorem claim_C7_nondict_guard (st : HieraState) (key : String) (facts : Facts)
    (inc : Bool) (K : PyKey) (bpre bpost : List Backend) (B : Backend)
    (ppre psuf : List BackendData) (dp : BackendData)
    (hreg : alookup key st.keys = some K)
    (hlist : st.backends.list = bpre ++ B :: bpost)
    (hbpre : ∀ b ∈ bpre, ∃ pts, b.key_data_get key facts = .ok pts ∧
      ∀ p ∈ pts, okPoint K p = true)
    (hB : B.key_data_get key facts = .ok (ppre ++ dp :: psuf))
    (hppre : ∀ p ∈ ppre, okPoint K p = true)
    (hdp : dp.data.isDict = false) :
    key_data_get_merge st key facts inc =
      .error (.pyHieraBackendError ("Invalid data for key " ++ key
        ++ ", expected dict, got: " ++ pyStr dp.data)) := by
  have hcoll : merge_collect st key facts (bpre ++ B :: bpost) =
      .error (.pyHieraBackendError ("Invalid data for key " ++ key
        ++ ", expected dict, got: " ++ pyStr dp.data)) := by
    clear hlist
    induction bpre with
    | nil =>
      rw [List.nil_append, merge_collect, hB]
      simp only [process_points_bad st key K hreg dp psuf hdp ppre hppre]
    | cons b rest ih =>
      rcases hbpre b (List.mem_cons_self _ _) with ⟨pts, hb, hok⟩
      rcases process_points_ok st key K hreg pts hok with ⟨res, hres⟩
      rw [List.cons_append, merge_collect, hb]
      simp only [hres, ih (fun b' hb' => hbpre b' (List.mem_cons_of_mem _ hb'))]
  have hne : (alookup key st.keys).isNone = false := by rw [hreg]; rfl
  rw [key_data_get_merge, hne]
  simp only [Bool.false_eq_true, if_false, hlist, hcoll]

/-- Is the outcome a raised `PyHieraBackendError` (the class of the merge
type guard)? -/
def raisesBackendError : Except PyErr DataResult → Bool
  | .error (.pyHieraBackendError _) => true
  | _ => false

def c7dp1 : BackendData := ⟨"c7", 1, "environment/prod.yaml", "k", .vdict []⟩

def c7dp2 : BackendData := ⟨"c7", 1, "common.yaml", "k", .vint 5⟩

def c7backend : Backend := ⟨"c7", 1, ["common.yaml"], fun _ _ => [c7dp1, c7dp2]⟩

def stC7 : HieraState := ⟨[("k", strKey)], ⟨[("c7", c7backend)], [c7backend]⟩⟩

/-- Counterexample to C7 as stated: under a string schema, a backend whose
matches are the dict `\x7b\x7d` followed by the scalar `5` does contain a
non-dict collected match, yet the call fails with the *validation*
`PyHieraError` raised for the earlier dict match — not with the
`PyHieraBackendError` type error the claim promises. -/
theorem claim_C7_nondict_guard_counterexample :
    collect_raw "k" [] stC7.backends.list = .ok [c7dp1, c7dp2] ∧
    c7dp2.data.isDict = false ∧
    key_data_get_merge stC7 "k" [] true =
      .error (.pyHieraError "Invalid data for key k: Input should be a valid string") ∧
    raisesBackendError (key_data_get_merge stC7 "k" [] true) = false := by
  refine ⟨by decide, rfl, by decide, by decide⟩

def c7wdp : BackendData := ⟨"c7w", 1, "common.yaml", "k", .vint 5⟩

def c7wBackend : Backend := ⟨"c7w", 1, ["common.yaml"], fun _ _ => [c7wdp]⟩

def stC7w : HieraState := ⟨[("k", strKey)], ⟨[("c7w", c7wBackend)], [c7wBackend]⟩⟩

/-- Witness for the amended C7: a single backend whose only match is the
scalar `5` makes the merge call fail with the type error naming the key. -/
theorem claim_C7_nondict_guard_witness :
    key_data_get_merge stC7w "k" [] true =
      .error (.pyHieraBackendError ("Invalid data for key k, expected dict, got: "
        ++ pyStr c7wdp.data)) :=
  claim_C7_nondict_guard stC7w "k" [] true strKey [] [] c7wBackend [] [] c7wdp
    rfl rfl (fun b hb => absurd hb (List.not_mem_nil b)) rfl
    (fun p hp => absurd hp (List.not_mem_nil p)) rfl

/-- How a validated data point in the merge path relates to the raw match it
came from: all identifying fields are preserved and `data` is the schema's
normalized output on the raw value. -/
def normalizedFrom (K : PyKey) (raw v : BackendData) : Prop :=
  v.identifier = raw.identifier ∧ v.priority = raw.priority ∧
  v.level = raw.level ∧ v.key = raw.key ∧ K.validate raw.data = .ok v.data

theorem process_points_normalized (st : HieraState) (key : String) (K : PyKey)
    (hreg : alookup key st.keys = some K) :
    ∀ (pts vpts : List BackendData), process_points st key pts = .ok vpts →
    List.Forall₂ (normalizedFrom K) pts vpts := by
  intro pts
  induction pts with
  | nil =>
    intro vpts h
    obtain rfl : ([] : List BackendData) = vpts := Except.ok.inj h
    exact List.Forall₂.nil
  | cons dp rest ih =>
    intro vpts h
    by_cases hd : dp.data.isDict = true
    · rw [process_points, if_pos hd, key_data_validate, hreg] at h
      cases hv : K.validate dp.data with
      | error e => simp [hv] at h
      | ok v =>
        simp only [hv] at h
        cases hrest : process_points st key rest with
        | error e => simp [hrest] at h
        | ok more =>
          rw [hrest] at h
          obtain rfl : { dp with data := v } :: more = vpts := Except.ok.inj h
          exact List.Forall₂.cons ⟨rfl, rfl, rfl, rfl, hv⟩ (ih more hrest)
    · rw [process_points, if_neg hd] at h
      cases h

theorem merge_collect_normalized (st : HieraState) (key : String) (facts : Facts)
    (K : PyKey) (hreg : alookup key st.keys = some K) :
    ∀ (bs : List Backend) (raws vpts : List BackendData),
    collect_raw key facts bs = .ok raws →
    merge_collect st key facts bs = .ok vpts →
    List.Forall₂ (normalizedFrom K) raws vpts := by
  intro bs
  induction bs with
  | nil =>
    intro raws vpts hr hv
    obtain rfl : ([] : List BackendData) = raws := Except.ok.inj hr
    obtain rfl : ([] : List BackendData) = vpts := Except.ok.inj hv
    exact List.Forall₂.nil
  | cons b rest ih =>
    intro raws vpts hr hv
    cases hb : b.key_data_get key facts with
    | error e =>
      rw [collect_raw, hb] at hr
      cases hr
    | ok pts =>
      simp only [collect_raw, hb] at hr
      simp only [merge_collect, hb] at hv
      cases hrr : collect_raw key facts rest with
      | error e => simp [hrr] at hr
      | ok morer =>
        simp only [hrr] at hr
        obtain rfl : pts ++ morer = raws := Except.ok.inj hr
        cases hp : process_points st key pts with
        | error e => simp [hp] at hv
        | ok vp =>
          simp only [hp] at hv
          cases hmc : merge_collect st key facts rest with
          | error e => simp [hmc] at hv
          | ok more =>
            simp only [hmc] at hv
            obtain rfl : vp ++ more = vpts := Except.ok.inj hv
            exact List.rel_append
              (process_points_normalized st key K hreg pts vp hp)
              (ih morer more hrr hmc)

/--
C10.  Merge provenance carries normalized data: whenever `key_data_get_merge`
succeeds with `include_sources` set, the provenance list is present and its
entries correspond one-to-one, in discovery order, to the raw matches the
backends reported — with identifier, priority, level and key preserved, and
with each entry's `data` equal to the schema-validated, normalized output on
that raw match's value (the in-place mutation during collection), never the
raw value itself when normalization changes it.
-/
theorem claim_C10_merge_provenance (st : HieraState) (key : String) (facts : Facts)
    (K : PyKey) (raws : List BackendData) (res : DataResult)
    (hreg : alookup key st.keys = some K)
    (hraw : collect_raw key facts st.backends.list = .ok raws)
    (hres : key_data_get_merge st key facts true = .ok res) :
    res.sources ≠ none ∧
    List.Forall₂ (normalizedFrom K) raws (res.sources.getD []) := by
  have hne : (alookup key st.keys).isNone = false := by rw [hreg]; rfl
  rw [key_data_get_merge, hne] at hres
  simp only [Bool.false_eq_true, if_false] at hres
  cases hmc : merge_collect st key facts st.backends.list with
  | error e => rw [hmc] at hres; cases hres
  | ok vpts =>
    rw [hmc] at hres
    cases vpts with
    | nil => simp at hres
    | cons p ps =>
      simp only at hres
      cases hmf : merge_fold (p :: ps) with
      | none => simp [hmf] at hres
      | some merged =>
        rw [hmf] at hres
        simp only [if_true] at hres
        rw [key_data_validate, hreg] at hres
        cases hval : K.validate merged with
        | error e => simp [hval] at hres
        | ok v =>
          simp only [hval] at hres
          obtain rfl : ({ sources := some (p :: ps), data := v } : DataResult) = res :=
            Except.ok.inj hres
          refine ⟨by simp, ?_⟩
          simp only [Option.getD_some]
          exact merge_collect_normalized st key facts K hreg st.backends.list
            raws (p :: ps) hraw hmc

def c10dp : BackendData := ⟨"c10", 1, "common.yaml", "k", .vdict [("a", .vint 2)]⟩

def c10backend : Backend := ⟨"c10", 1, ["common.yaml"], fun _ _ => [c10dp]⟩

/-- A schema whose normalization visibly changes the value: it adds an
"extra" field while validating (as a pydantic model with a defaulted field
does on `model_dump`). -/
def normKey : PyKey := ⟨fun v =>
  match v with
  | .vdict d => .ok (.vdict (aset "extra" (.vint 1) d))
  | _ => .error "Input should be a valid dictionary"⟩

def stC10 : HieraState := ⟨[("k", normKey)], ⟨[("c10", c10backend)], [c10backend]⟩⟩

/-- The normalized form of `c10dp` under `normKey`. -/
def c10norm : BackendData :=
  ⟨"c10", 1, "common.yaml", "k", .vdict [("a", .vint 2), ("extra", .vint 1)]⟩

def c10res : DataResult :=
  { sources := some [c10norm], data := .vdict [("a", .vint 2), ("extra", .vint 1)] }

/-- Witness for C10 at a schema whose normalization adds a field: the
provenance entry holds the normalized dict, not the raw one. -/
theorem claim_C10_merge_provenance_witness :
    c10res.sources ≠ none ∧
    List.Forall₂ (normalizedFrom normKey) [c10dp] (c10res.sources.getD []) :=
  claim_C10_merge_provenance stC10 "k" [] normKey [c10dp] c10res rfl rfl (by decide)

/-- A placeholder name that is neither empty nor all digits — i.e. one that
`str.format(**facts)` treats as a keyword lookup rather than positional
auto-numbering (`[].all` is `true`, so the empty name is excluded too). -/
def plainName (n : String) : Bool := !(n.data.all Char.isDigit)

theorem phGo_cons_some (c : Char) (rest acc : List Char) :
    phGo (c :: rest) (some acc) =
      if c = '\x7d' then (phGo rest none).map (fun ns => String.mk acc.reverse :: ns)
      else if c = '\x7b' then none
      else phGo rest (some (c :: acc)) := by
  cases rest <;> rw [phGo.eq_def]

theorem phGo_one_none (c : Char) :
    phGo [c] none =
      if c = '\x7b' then phGo [] (some [])
      else if c = '\x7d' then none
      else phGo [] none := by
  rw [phGo.eq_def]

theorem phGo_two_none (c c2 : Char) (rest2 : List Char) :
    phGo (c :: c2 :: rest2) none =
      if c = '\x7b' then
        (if c2 = '\x7b' then phGo rest2 none else phGo (c2 :: rest2) (some []))
      else if c = '\x7d' then
        (if c2 = '\x7d' then phGo rest2 none else none)
      else phGo (c2 :: rest2) none := by
  rw [phGo.eq_def]

theorem fmtGo_cons_some (facts : Facts) (c : Char) (rest acc : List Char) :
    fmtGo facts (c :: rest) (some acc) =
      if c = '\x7d' then
        (if acc.all Char.isDigit then .error (.indexError "Replacement index out of range")
         else
           match alookup (String.mk acc.reverse) facts with
           | some v => (fmtGo facts rest none).map (fun s => v.data ++ s)
           | none => .error (.keyError (String.mk acc.reverse)))
      else if c = '\x7b' then .error (.valueError "unexpected brace in field name")
      else fmtGo facts rest (some (c :: acc)) := by
  cases rest <;> rw [fmtGo.eq_def]

theorem fmtGo_two_none (facts : Facts) (c c2 : Char) (rest2 : List Char) :
    fmtGo facts (c :: c2 :: rest2) none =
      if c = '\x7b' then
        (if c2 = '\x7b' then (fmtGo facts rest2 none).map (fun s => '\x7b' :: s)
         else fmtGo facts (c2 :: rest2) (some []))
      else if c = '\x7d' then
        (if c2 = '\x7d' then (fmtGo facts rest2 none).map (fun s => '\x7d' :: s)
         else .error (.valueError "Single brace encountered in format string"))
      else (fmtGo facts (c2 :: rest2) none).map (fun s => c :: s) := by
  rw [fmtGo.eq_def]

theorem fmt_missing (facts : Facts) : ∀ (n : Nat) (cs : List Char)
    (mode : Option (List Char)) (names : List String),
    cs.length ≤ n →
    phGo cs mode = some names →
    (∀ x ∈ names, plainName x = true) →
    (∃ x ∈ names, alookup x facts = none) →
    ∃ f ∈ names, alookup f facts = none ∧ fmtGo facts cs mode = .error (.keyError f) := by
  intro n
  induction n with
  | zero =>
    intro cs mode names hlen hph hpl hex
    obtain rfl : cs = [] := List.eq_nil_of_length_eq_zero (Nat.le_zero.mp hlen)
    cases mode with
    | none =>
      obtain rfl : [] = names := Option.some.inj hph
      rcases hex with ⟨x, hx, _⟩
      cases hx
    | some acc => cases hph
  | succ n ih =>
    intro cs mode names hlen hph hpl hex
    cases cs with
    | nil =>
      cases mode with
      | none =>
        obtain rfl : [] = names := Option.some.inj hph
        rcases hex with ⟨x, hx, _⟩
        cases hx
      | some acc => cases hph
    | cons c rest =>
      have hlen' : rest.length ≤ n := Nat.succ_le_succ_iff.mp hlen
      cases mode with
      | some acc =>
        rw [phGo_cons_some] at hph
        by_cases h7d : c = '\x7d'
        · rw [if_pos h7d] at hph
          cases hrec : phGo rest none with
          | none => rw [hrec] at hph; cases hph
          | some ns =>
            rw [hrec] at hph
            obtain rfl : String.mk acc.reverse :: ns = names := by
              simpa using hph
            have hplain := hpl (String.mk acc.reverse) (List.mem_cons_self _ _)
            have hdig : acc.all Char.isDigit = false := by
              rw [plainName, Bool.not_eq_eq_eq_not, Bool.not_true] at hplain
              rw [show (String.mk acc.reverse).data = acc.reverse from rfl] at hplain
              rwa [List.all_reverse] at hplain
            cases hlk : alookup (String.mk acc.reverse) facts with
            | none =>
              refine ⟨String.mk acc.reverse, List.mem_cons_self _ _, hlk, ?_⟩
              rw [fmtGo_cons_some, if_pos h7d, if_neg (by rw [hdig]; exact Bool.false_ne_true),
                hlk]
            | some v =>
              have hex' : ∃ x ∈ ns, alookup x facts = none := by
                rcases hex with ⟨x, hx, hxm⟩
                rcases List.mem_cons.mp hx with h | h
                · subst h; rw [hlk] at hxm; cases hxm
                · exact ⟨x, h, hxm⟩
              rcases ih rest none ns hlen' hrec
                (fun x hx => hpl x (List.mem_cons_of_mem _ hx)) hex' with ⟨f, hf, hfm, hffmt⟩
              refine ⟨f, List.mem_cons_of_mem _ hf, hfm, ?_⟩
              rw [fmtGo_cons_some, if_pos h7d, if_neg (by rw [hdig]; exact Bool.false_ne_true),
                hlk, hffmt]
              rfl
        · by_cases h7b : c = '\x7b'
          · rw [if_neg h7d, if_pos h7b] at hph
            cases hph
          · rw [if_neg h7d, if_neg h7b] at hph
            rcases ih rest (some (c :: acc)) names hlen' hph hpl hex with ⟨f, hf, hfm, hffmt⟩
            refine ⟨f, hf, hfm, ?_⟩
            rw [fmtGo_cons_some, if_neg h7d, if_neg h7b]
            exact hffmt
      | none =>
        cases rest with
        | nil =>
          rw [phGo_one_none] at hph
          by_cases h7b : c = '\x7b'
          · rw [if_pos h7b] at hph; cases hph
          · by_cases h7d : c = '\x7d'
            · rw [if_neg h7b, if_pos h7d] at hph; cases hph
            · rw [if_neg h7b, if_neg h7d] at hph
              obtain rfl : [] = names := Option.some.inj hph
              rcases hex with ⟨x, hx, _⟩
              cases hx
        | cons c2 rest2 =>
          have hlen2 : rest2.length ≤ n := by
            simp only [List.length_cons] at hlen'
            omega
          rw [phGo_two_none] at hph
          by_cases h7b : c = '\x7b'
          · rw [if_pos h7b] at hph
            by_cases h2 : c2 = '\x7b'
            · rw [if_pos h2] at hph
              rcases ih rest2 none names hlen2 hph hpl hex with ⟨f, hf, hfm, hffmt⟩
              refine ⟨f, hf, hfm, ?_⟩
              rw [fmtGo_two_none, if_pos h7b, if_pos h2, hffmt]
              rfl
            · rw [if_neg h2] at hph
              rcases ih (c2 :: rest2) (some []) names hlen' hph hpl hex with ⟨f, hf, hfm, hffmt⟩
              refine ⟨f, hf, hfm, ?_⟩
              rw [fmtGo_two_none, if_pos h7b, if_neg h2]
              exact hffmt
          · by_cases h7d : c = '\x7d'
            · rw [if_neg h7b, if_pos h7d] at hph
              by_cases h2 : c2 = '\x7d'
              · rw [if_pos h2] at hph
                rcases ih rest2 none names hlen2 hph hpl hex with ⟨f, hf, hfm, hffmt⟩
                refine ⟨f, hf, hfm, ?_⟩
                rw [fmtGo_two_none, if_neg h7b, if_pos h7d, if_pos h2, hffmt]
                rfl
              · rw [if_neg h2] at hph; cases hph
            · rw [if_neg h7b, if_neg h7d] at hph
              rcases ih (c2 :: rest2) none names hlen' hph hpl hex with ⟨f, hf, hfm, hffmt⟩
              refine ⟨f, hf, hfm, ?_⟩
              rw [fmtGo_two_none, if_neg h7b, if_neg h7d, hffmt]
              rfl

/-- Checks that the outcome of a level expansion is the
`PyHieraBackendError` naming the level and one of the given placeholder
names that is indeed absent from the facts. -/
def missingFactErr (level : String) (facts : Facts) (names : List String)
    (r : Except PyErr String) : Bool :=
  names.any fun f => (alookup f facts).isNone &&
    decide (r = .error (.pyHieraBackendError
      ("missing facts to expand level " ++ level ++ ": '" ++ f ++ "'")))

/--
C8.  Missing fact failure: for every well-formed level template whose
placeholders are plain keyword names, if some placeholder's fact is absent
from the fact mapping, `_expand_level` fails — no string is produced — with
the `PyHieraBackendError` that names both the level and a placeholder whose
fact is missing (the first one `format` reaches).  Such an expansion failure
propagating out of a backend aborts the resolve call that triggered it: the
resolver returns that very error.
-/
theorem claim_C8_missing_fact :
    (∀ (level : String) (facts : Facts) (names : List String) (name : String),
      phGo level.data none = some names →
      (∀ x ∈ names, plainName x = true) →
      name ∈ names →
      alookup name facts = none →
      missingFactErr level facts names (expand_level level facts) = true) ∧
    (∀ (st : HieraState) (key level : String) (facts : Facts) (inc : Bool)
       (K : PyKey) (b : Backend) (e : PyErr),
      alookup key st.keys = some K →
      st.backends.list = [b] →
      b.hierarchy = [level] →
      expand_level level facts = .error e →
      key_data_get st key facts inc = .error e) := by
  constructor
  · intro level facts names name hph hpl hmem hmiss
    rcases fmt_missing facts level.data.length level.data none names le_rfl hph hpl
      ⟨name, hmem, hmiss⟩ with ⟨f, hf, hfm, hffmt⟩
    rw [missingFactErr, List.any_eq_true]
    refine ⟨f, hf, ?_⟩
    rw [expand_level, hffmt]
    simp [hfm]
  · intro st key level facts inc K b e hreg hlist hhier hexp
    have hne : (alookup key st.keys).isNone = false := by rw [hreg]; rfl
    rw [key_data_get, hne]
    simp only [Bool.false_eq_true, if_false, hlist]
    rw [key_data_get_loop, Backend.key_data_get, hhier]
    rw [expand_levels, hexp]

/-- Witness for C8 at the spec's own example: template
`env/\x7benvironment\x7d.cfg` with empty facts. -/
theorem claim_C8_missing_fact_witness :
    missingFactErr "env/\x7benvironment\x7d.cfg" [] ["environment"]
      (expand_level "env/\x7benvironment\x7d.cfg" []) = true :=
  claim_C8_missing_fact.1 "env/\x7benvironment\x7d.cfg" [] ["environment"] "environment"
    rfl (by decide) (List.mem_singleton.mpr rfl) rfl
